import Mathlib

/-!
Verification of the invoice reminder bot's escalation engine and reminder
store (`reminder_bot.py`), as a shallow embedding in Lean 4.

Embedding conventions:
* `days_since_due` is an integer (it can be negative for invoices due in the
  future); schedule thresholds are integers.
* `reminders_sent` is a natural number (the store only ever holds `0` or a
  loop ordinal).
* The Python dict `state['invoices']` is an association list `Store`;
  assignment `state['invoices'][k] = v` is `insertStore`.
* A `BotState` carries the in-memory mapping `mem` and the last persisted
  mapping `disk` (`save_state` copies `mem` to `disk`).
* `min([])` raising `ValueError` in the skip-reporting branch is modelled by
  the `Decision.err` outcome (and by the `Except.error` result of
  `processInvoice`).
* Email delivery is an external collaborator; its success/failure enters the
  model as the boolean `emailOk`.
-/

set_option autoImplicit false

namespace ReminderBot

/-- Outcome of one evaluation of an invoice by `check_and_remind`:
either a reminder with a 1-based ordinal is sent, or the evaluation is
skipped with the reported reason (`max reminders reached`, `too early`),
skipped silently (no message printed), or raises (`min` of an empty
schedule). -/
inductive Decision where
  | send (ordinal : Nat)
  | skipMaxReached
  | skipTooEarly
  | skipSilent
  | err
deriving DecidableEq, Repr

/-- Per-invoice reminder history, as stored in `state['invoices'][id]`. -/
structure ReminderRecord where
  reminders_sent : Nat
  last_reminder : Option Int
deriving DecidableEq, Repr

/-- The `state['invoices']` mapping: invoice id to reminder record. -/
abbrev Store := List (String × ReminderRecord)

/-- Dict lookup `state['invoices'].get(k)`. -/
def lookupStore : Store → String → Option ReminderRecord
  | [], _ => none
  | (k, v) :: rest, key => if k = key then some v else lookupStore rest key

/-- Dict assignment `state['invoices'][k] = v` (replace or append). -/
def insertStore : Store → String → ReminderRecord → Store
  | [], key, v => [(key, v)]
  | (k, w) :: rest, key, v =>
    if k = key then (key, v) :: rest else (k, w) :: insertStore rest key v

/-- The scan loop of `check_and_remind`
(`for i, days in enumerate(self.reminder_days, 1): ...`), started at
1-based ordinal `start`: the first ordinal `i` with
`days_since_due >= days and reminders_sent < i and reminders_sent < max_reminders`.
-/
def scanFrom (maxReminders remindersSent : Nat) (daysSinceDue : Int) :
    Nat → List Int → Option Nat
  | _, [] => none
  | start, d :: rest =>
    if d ≤ daysSinceDue ∧ remindersSent < start ∧ remindersSent < maxReminders
    then some start
    else scanFrom maxReminders remindersSent daysSinceDue (start + 1) rest

/-- The scan loop of `check_and_remind` over the whole schedule
(ordinals are 1-based, as in `enumerate(self.reminder_days, 1)`). -/
def reminderScan (schedule : List Int) (maxReminders remindersSent : Nat)
    (daysSinceDue : Int) : Option Nat :=
  scanFrom maxReminders remindersSent daysSinceDue 1 schedule

/-- Python's `min` on a list of integers: `none` models the `ValueError`
raised on an empty sequence. -/
def listMin : List Int → Option Int
  | [] => none
  | d :: rest =>
    some (match listMin rest with
          | none => d
          | some m => min d m)

/-- The full decision taken by `check_and_remind` for one invoice, with the
skip reason resolved exactly as the code does: the scan loop first; if no
ordinal was selected, `reminders_sent >= max_reminders` is checked first,
then `days_since_due < min(reminder_days)` (which raises on an empty
schedule), and otherwise nothing is reported. -/
def check_decision (schedule : List Int) (maxReminders remindersSent : Nat)
    (daysSinceDue : Int) : Decision :=
  match reminderScan schedule maxReminders remindersSent daysSinceDue with
  | some i => Decision.send i
  | none =>
    if maxReminders ≤ remindersSent then Decision.skipMaxReached
    else
      match listMin schedule with
      | none => Decision.err
      | some m =>
        if daysSinceDue < m then Decision.skipTooEarly else Decision.skipSilent

/-- Ordinal `i` (1-based) qualifies for a send: the schedule has an `i`-th
threshold `d` with `days_since_due >= d`, `reminders_sent < i` and
`reminders_sent < max_reminders`. -/
def ordinalHit (schedule : List Int) (maxReminders remindersSent : Nat)
    (daysSinceDue : Int) (i : Nat) : Prop :=
  ∃ d, schedule.get? (i - 1) = some d ∧
    d ≤ daysSinceDue ∧ remindersSent < i ∧ remindersSent < maxReminders

instance (schedule : List Int) (maxReminders remindersSent : Nat)
    (daysSinceDue : Int) (i : Nat) :
    Decidable (ordinalHit schedule maxReminders remindersSent daysSinceDue i) := by
  unfold ordinalHit
  cases schedule.get? (i - 1) with
  | none => exact isFalse (by simp)
  | some d =>
    exact decidable_of_iff (d ≤ daysSinceDue ∧ remindersSent < i ∧ remindersSent < maxReminders) (by simp)

theorem scanFrom_some_ge (maxR rs : Nat) (days : Int) (l : List Int) :
    ∀ start i, scanFrom maxR rs days start l = some i → start ≤ i := by
  induction l with
  | nil => intro start i h; simp [scanFrom] at h
  | cons d rest ih =>
    intro start i h
    by_cases hc : d ≤ days ∧ rs < start ∧ rs < maxR
    · simp [scanFrom, hc] at h; omega
    · simp [scanFrom, hc] at h
      have := ih (start + 1) i h
      omega

theorem scanFrom_some_hit (maxR rs : Nat) (days : Int) (l : List Int) :
    ∀ start i, scanFrom maxR rs days start l = some i →
      ∃ d, l.get? (i - start) = some d ∧ d ≤ days ∧ rs < i ∧ rs < maxR := by
  induction l with
  | nil => intro start i h; simp [scanFrom] at h
  | cons d rest ih =>
    intro start i h
    by_cases hc : d ≤ days ∧ rs < start ∧ rs < maxR
    · simp [scanFrom, hc] at h
      subst h
      exact ⟨d, by simp, hc.1, hc.2.1, hc.2.2⟩
    · simp [scanFrom, hc] at h
      have hge := scanFrom_some_ge maxR rs days rest (start + 1) i h
      obtain ⟨d', hget, hd⟩ := ih (start + 1) i h
      refine ⟨d', ?_, hd⟩
      have hsub : i - start = (i - (start + 1)) + 1 := by omega
      rw [hsub, List.get?_cons_succ]
      exact hget

theorem scanFrom_some_min (maxR rs : Nat) (days : Int) (l : List Int) :
    ∀ start i, scanFrom maxR rs days start l = some i →
      ∀ j, start ≤ j → j < i → ∀ d, l.get? (j - start) = some d →
        ¬(d ≤ days ∧ rs < j ∧ rs < maxR) := by
  induction l with
  | nil => intro start i h; simp [scanFrom] at h
  | cons d rest ih =>
    intro start i h j hsj hji d' hget
    by_cases hc : d ≤ days ∧ rs < start ∧ rs < maxR
    · simp [scanFrom, hc] at h
      omega
    · simp [scanFrom, hc] at h
      rcases Nat.eq_or_lt_of_le hsj with heq | hlt
      · subst heq
        simp at hget
        subst hget
        exact hc
      · have hsub : j - start = (j - (start + 1)) + 1 := by omega
        rw [hsub, List.get?_cons_succ] at hget
        exact ih (start + 1) i h j hlt hji d' hget

theorem scanFrom_none (maxR rs : Nat) (days : Int) (l : List Int) :
    ∀ start, scanFrom maxR rs days start l = none →
      ∀ j, start ≤ j → ∀ d, l.get? (j - start) = some d →
        ¬(d ≤ days ∧ rs < j ∧ rs < maxR) := by
  induction l with
  | nil => intro start _ j _ d hget; simp at hget
  | cons d rest ih =>
    intro start h j hsj d' hget
    by_cases hc : d ≤ days ∧ rs < start ∧ rs < maxR
    · simp [scanFrom, hc] at h
    · simp [scanFrom, hc] at h
      rcases Nat.eq_or_lt_of_le hsj with heq | hlt
      · subst heq
        simp at hget
        subst hget
        exact hc
      · have hsub : j - start = (j - (start + 1)) + 1 := by omega
        rw [hsub, List.get?_cons_succ] at hget
        exact ih (start + 1) h j hlt d' hget

/-- First-match characterisation of the scan loop: it returns ordinal `i`
exactly when `i` qualifies and no earlier ordinal does. -/
theorem reminderScan_eq_some_iff (schedule : List Int) (maxR rs : Nat)
    (days : Int) (i : Nat) :
    reminderScan schedule maxR rs days = some i ↔
      (1 ≤ i ∧ ordinalHit schedule maxR rs days i ∧
        ∀ j, 1 ≤ j → j < i → ¬ ordinalHit schedule maxR rs days j) := by
  constructor
  · intro h
    have hge := scanFrom_some_ge maxR rs days schedule 1 i h
    obtain ⟨d, hget, hd⟩ := scanFrom_some_hit maxR rs days schedule 1 i h
    refine ⟨hge, ⟨d, hget, hd⟩, ?_⟩
    intro j hj1 hji ⟨d', hget', hd'⟩
    exact scanFrom_some_min maxR rs days schedule 1 i h j hj1 hji d' hget' hd'
  · rintro ⟨hi1, ⟨d, hget, hd⟩, hmin⟩
    cases hscan : reminderScan schedule maxR rs days with
    | none =>
      exact absurd hd (scanFrom_none maxR rs days schedule 1 hscan i hi1 d hget)
    | some k =>
      have hkge := scanFrom_some_ge maxR rs days schedule 1 k hscan
      obtain ⟨dk, hgetk, hdk⟩ := scanFrom_some_hit maxR rs days schedule 1 k hscan
      rcases Nat.lt_trichotomy k i with hlt | heq | hgt
      · exact absurd (⟨dk, hgetk, hdk⟩ : ordinalHit schedule maxR rs days k)
          (hmin k hkge hlt)
      · rw [heq]
      · exact absurd hd
          (scanFrom_some_min maxR rs days schedule 1 k hscan i hi1 hgt d hget)

/-- The decision is `send i` exactly when the scan loop returns `i`. -/
theorem check_decision_send_iff (schedule : List Int) (maxR rs : Nat)
    (days : Int) (i : Nat) :
    check_decision schedule maxR rs days = Decision.send i ↔
      reminderScan schedule maxR rs days = some i := by
  unfold check_decision
  cases hscan : reminderScan schedule maxR rs days with
  | none =>
    constructor
    · intro h
      by_cases hm : maxR ≤ rs
      · simp [hm] at h
      · simp [hm] at h
        cases hmin : listMin schedule with
        | none => simp [hmin] at h
        | some m =>
          by_cases hdm : days < m
          · simp [hmin, hdm] at h
          · simp [hmin, hdm] at h
    · intro h; exact absurd h (by simp)
  | some k => simp

theorem listMin_eq_none (l : List Int) : listMin l = none ↔ l = [] := by
  cases l with
  | nil => simp [listMin]
  | cons d rest => simp [listMin]

theorem listMin_le (l : List Int) (m : Int) (h : listMin l = some m) :
    ∀ d ∈ l, m ≤ d := by
  induction l generalizing m with
  | nil => simp [listMin] at h
  | cons d rest ih =>
    intro d' hd'
    cases hrest : listMin rest with
    | none =>
      have hnil : rest = [] := (listMin_eq_none rest).mp hrest
      subst hnil
      simp [listMin] at h
      simp at hd'
      omega
    | some m' =>
      simp [listMin, hrest] at h
      rcases List.mem_cons.mp hd' with h1 | h2
      · subst h1; omega
      · have := ih m' hrest d' h2
        omega

/-- C1: the escalation decision selects `Send i` for exactly the first
1-based ordinal `i` (scanning the schedule in order) satisfying
`daysOverdue >= schedule[i]`, `reminders_sent < i` and
`reminders_sent < maxReminders`; if no such ordinal exists, no send is
selected. -/
theorem escalation_selects_first_qualifying_ordinal (schedule : List Int)
    (maxR rs : Nat) (days : Int) (i : Nat) :
    check_decision schedule maxR rs days = Decision.send i ↔
      (1 ≤ i ∧ ordinalHit schedule maxR rs days i ∧
        ∀ j, 1 ≤ j → j < i → ¬ ordinalHit schedule maxR rs days j) :=
  (check_decision_send_iff schedule maxR rs days i).trans
    (reminderScan_eq_some_iff schedule maxR rs days i)

/-- C3 (amended): if `reminders_sent = k` is still below `maxReminders` and
`daysOverdue` satisfies the thresholds for ordinals `k+1` through `m`
(`m > k+1`), the engine selects exactly ordinal `k+1`, never a higher one. -/
theorem sequentiality_selects_next_ordinal (schedule : List Int)
    (maxR k m : Nat) (days : Int) (hk : k < maxR) (hm : k + 1 < m)
    (hthr : ∀ j, k + 1 ≤ j → j ≤ m →
      ∃ d, schedule.get? (j - 1) = some d ∧ d ≤ days) :
    check_decision schedule maxR k days = Decision.send (k + 1) := by
  rw [check_decision_send_iff, reminderScan_eq_some_iff]
  refine ⟨by omega, ?_, ?_⟩
  · obtain ⟨d, hget, hd⟩ := hthr (k + 1) (le_refl _) (by omega)
    exact ⟨d, hget, hd, by omega, hk⟩
  · rintro j hj1 hjk ⟨d, hget, hd, hrs, _⟩
    omega

/-- C3 counterexample: with schedule `[7,14,21]`, `maxReminders = 1` and a
record with `reminders_sent = 1`, `daysOverdue = 30` satisfies the
thresholds for ordinals 2 through 3, yet the engine does not select
ordinal 2 (it reports max reached), refuting the claim for records that
have exhausted the maximum. -/
theorem sequentiality_counterexample :
    List.get? [(7 : Int), 14, 21] 1 = some 14 ∧ ((14 : Int) ≤ 30) ∧
    List.get? [(7 : Int), 14, 21] 2 = some 21 ∧ ((21 : Int) ≤ 30) ∧
    check_decision [7, 14, 21] 1 1 30 = Decision.skipMaxReached ∧
    check_decision [7, 14, 21] 1 1 30 ≠ Decision.send 2 := by decide

/-- C4 (amended): when `reminders_sent < maxReminders` and `daysOverdue`
is below the minimum schedule threshold (which is `schedule[0]` for the
conventional sorted schedule), the decision is `Skip(too_early)`. The
`reminders_sent >= maxReminders` case reports max reached instead. -/
theorem too_early_skip (schedule : List Int) (maxR rs : Nat) (days : Int)
    (m : Int) (hmin : listMin schedule = some m) (hdays : days < m)
    (hrs : rs < maxR) :
    check_decision schedule maxR rs days = Decision.skipTooEarly := by
  have hnone : reminderScan schedule maxR rs days = none := by
    cases hscan : reminderScan schedule maxR rs days with
    | none => rfl
    | some i =>
      obtain ⟨d, hget, hd, _, _⟩ := scanFrom_some_hit maxR rs days schedule 1 i hscan
      have hmem : d ∈ schedule := List.get?_mem hget
      have := listMin_le schedule m hmin d hmem
      omega
  unfold check_decision
  rw [hnone, hmin]
  simp [Nat.not_le.mpr hrs, hdays]

theorem too_early_skip_witness :
    listMin [(7 : Int), 14, 21] = some 7 ∧ ((3 : Int) < 7) ∧ 0 < 3 ∧
    check_decision [7, 14, 21] 3 0 3 = Decision.skipTooEarly :=
  ⟨by decide, by decide, by decide,
    too_early_skip [7, 14, 21] 3 0 3 7 (by decide) (by decide) (by decide)⟩

/-- C4 counterexample: with schedule `[7,14,21]`, `maxReminders = 3`, a
record with `reminders_sent = 3` and `daysOverdue = 3 < schedule[0] = 7`,
the code reports `Skip(max_reached)`, not `Skip(too_early)`: the
max-reached check comes first in the code. -/
theorem skip_reason_priority_counterexample :
    ((3 : Int) < 7) ∧ (3 ≤ 3) ∧
    check_decision [7, 14, 21] 3 3 3 = Decision.skipMaxReached ∧
    check_decision [7, 14, 21] 3 3 3 ≠ Decision.skipTooEarly := by decide

/-- C5 (amended): on the empty schedule no send is ever selected; if
`reminders_sent >= maxReminders` the decision is `Skip(max_reached)`,
otherwise the skip-reason computation raises (`min()` of an empty
sequence), modelled as `Decision.err`. -/
theorem empty_schedule_decision (maxR rs : Nat) (days : Int) :
    check_decision [] maxR rs days =
      if maxR ≤ rs then Decision.skipMaxReached else Decision.err := rfl

/-- C5 counterexample: evaluating an invoice with `reminders_sent = 0`
and `maxReminders = 3` against the empty schedule raises a `ValueError`
(`min()` of an empty sequence) instead of returning `Skip(too_early)`. -/
theorem empty_schedule_error_counterexample :
    check_decision [] 3 0 0 = Decision.err ∧
    check_decision [] 3 0 0 ≠ Decision.skipTooEarly := by decide

/-- C3 witness: schedule `[7,14,21]`, `maxReminders = 3`,
`reminders_sent = 1`, `daysOverdue = 30` (thresholds for ordinals 2..3
hold) selects exactly ordinal 2. -/
theorem sequentiality_selects_next_ordinal_witness :
    1 < 3 ∧ 1 + 1 < 3 ∧
    check_decision [(7 : Int), 14, 21] 3 1 30 = Decision.send (1 + 1) := by
  refine ⟨by decide, by decide,
    sequentiality_selects_next_ordinal [7, 14, 21] 3 1 3 30 (by decide) (by decide) ?_⟩
  intro j h1 h2
  interval_cases j
  · exact ⟨14, by decide, by decide⟩
  · exact ⟨21, by decide, by decide⟩

/-- The fresh record `{'reminders_sent': 0, 'last_reminder': None}`. -/
def zeroRecord : ReminderRecord := ⟨0, none⟩

/-- The bot's state: the in-memory `state['invoices']` mapping and the last
persisted copy (`save_state` writes `mem` to `disk`). -/
structure BotState where
  mem : Store
  disk : Store
deriving DecidableEq, Repr

/-- The initialisation step of `check_and_remind`: a previously-unseen
invoice id gets a fresh zero-valued record inserted into the in-memory
mapping. -/
def initRecord (mem : Store) (invoiceId : String) : Store :=
  if (lookupStore mem invoiceId).isNone
  then insertStore mem invoiceId zeroRecord
  else mem

/-- `reminders_sent` as read by the code: the stored value, or `0` for an
absent record. -/
def effectiveRS (mem : Store) (invoiceId : String) : Nat :=
  ((lookupStore mem invoiceId).getD zeroRecord).reminders_sent

/-- One iteration of the `check_and_remind` loop for a single invoice with
a known due date. `Except.error` models the `ValueError` raised by
`min([])` in the skip-reporting branch (the in-memory state at the raise is
carried along); `emailOk` is the outcome of `send_reminder_email`. On a
successful send the record is updated and the whole state persisted. -/
def processInvoice (schedule : List Int) (maxReminders : Nat) (st : BotState)
    (invoiceId : String) (daysSinceDue : Int) (emailOk : Bool) (now : Int) :
    Except BotState BotState :=
  let mem1 := initRecord st.mem invoiceId
  match reminderScan schedule maxReminders (effectiveRS mem1 invoiceId) daysSinceDue with
  | some i =>
    if emailOk then
      let mem2 := insertStore mem1 invoiceId ⟨i, some now⟩
      Except.ok ⟨mem2, mem2⟩
    else Except.ok ⟨mem1, st.disk⟩
  | none =>
    if maxReminders ≤ effectiveRS mem1 invoiceId then Except.ok ⟨mem1, st.disk⟩
    else
      match listMin schedule with
      | none => Except.error ⟨mem1, st.disk⟩
      | some _ => Except.ok ⟨mem1, st.disk⟩

/-- `send_manual_reminder`: if the invoice is in the unpaid list, the
reminder ordinal `reminders_sent + 1` is computed from the current record
(defaulting to zero) with no reference to the schedule or to days overdue;
on a successful send the record is written back and the state persisted. -/
def send_manual_reminder (st : BotState) (invoiceId : String)
    (unpaidIds : List String) (emailOk : Bool) (now : Int) : BotState :=
  if invoiceId ∈ unpaidIds then
    let rn := effectiveRS st.mem invoiceId + 1
    if emailOk then
      let mem2 := insertStore st.mem invoiceId ⟨rn, some now⟩
      ⟨mem2, mem2⟩
    else st
  else st

/-- An operation of the command surface that can touch the store. -/
inductive Op where
  | check (invoiceId : String) (daysSinceDue : Int) (emailOk : Bool) (now : Int)
  | manual (invoiceId : String) (unpaidIds : List String) (emailOk : Bool) (now : Int)
deriving DecidableEq, Repr

def Op.isCheck : Op → Bool
  | .check _ _ _ _ => true
  | .manual _ _ _ _ => false

/-- The state reached by an operation, whether or not it raised. -/
def exceptState : Except BotState BotState → BotState
  | .ok st => st
  | .error st => st

def applyOp (schedule : List Int) (maxReminders : Nat) (st : BotState) :
    Op → BotState
  | .check id days ok now =>
    exceptState (processInvoice schedule maxReminders st id days ok now)
  | .manual id unpaid ok now => send_manual_reminder st id unpaid ok now

/-- States reachable from the empty store by a sequence of operations. -/
def runOps (schedule : List Int) (maxReminders : Nat) (ops : List Op) :
    BotState :=
  ops.foldl (applyOp schedule maxReminders) ⟨[], []⟩

theorem lookupStore_insert_cases (s : Store) (key : String)
    (v : ReminderRecord) (k : String) :
    lookupStore (insertStore s key v) k =
      if key = k then some v else lookupStore s k := by
  induction s with
  | nil => simp [insertStore, lookupStore]
  | cons p rest ih =>
    obtain ⟨k₀, w⟩ := p
    by_cases h0 : k₀ = key
    · subst h0
      by_cases hk : k₀ = k
      · subst hk; simp [insertStore, lookupStore]
      · simp [insertStore, lookupStore, hk]
    · by_cases hk : k₀ = k
      · subst hk
        have : ¬ key = k₀ := fun h => h0 h.symm
        simp [insertStore, lookupStore, h0, this]
      · simp [insertStore, lookupStore, h0, hk, ih]

theorem lookupStore_insert (s : Store) (key : String) (v : ReminderRecord) :
    lookupStore (insertStore s key v) key = some v := by
  simp [lookupStore_insert_cases]

/-- C6 (amended): evaluating a previously-unseen invoice inserts the fresh
zero-valued record into the in-memory mapping immediately, even when the
scan selects no send; only the persisted state is unchanged until a send
occurs. -/
theorem fresh_record_insertion (schedule : List Int) (maxR : Nat)
    (st : BotState) (invoiceId : String) (days : Int) (emailOk : Bool)
    (now : Int) (habs : lookupStore st.mem invoiceId = none)
    (hscan : reminderScan schedule maxR 0 days = none)
    (hne : schedule ≠ []) :
    processInvoice schedule maxR st invoiceId days emailOk now =
      Except.ok ⟨insertStore st.mem invoiceId zeroRecord, st.disk⟩ := by
  have hmem1 : initRecord st.mem invoiceId =
      insertStore st.mem invoiceId zeroRecord := by
    simp [initRecord, habs]
  have hrs : effectiveRS (insertStore st.mem invoiceId zeroRecord) invoiceId = 0 := by
    simp [effectiveRS, lookupStore_insert, zeroRecord]
  obtain ⟨m, hm⟩ : ∃ m, listMin schedule = some m := by
    cases h : listMin schedule with
    | none => exact absurd ((listMin_eq_none schedule).mp h) hne
    | some m => exact ⟨m, rfl⟩
  simp only [processInvoice, hmem1, hrs, hscan, hm]
  by_cases h0 : maxR ≤ 0 <;> simp [h0]

/-- C6 witness: a skipped evaluation of the unseen invoice `inv1` against
schedule `[7,14,21]` inserts the zero record in memory and leaves the
persisted state empty. -/
theorem fresh_record_insertion_witness :
    lookupStore ([] : Store) "inv1" = none ∧
    reminderScan [(7 : Int), 14, 21] 3 0 0 = none ∧
    processInvoice [7, 14, 21] 3 ⟨[], []⟩ "inv1" 0 true 0 =
      Except.ok ⟨insertStore [] "inv1" zeroRecord, ([] : Store)⟩ :=
  ⟨rfl, rfl,
    fresh_record_insertion [7, 14, 21] 3 ⟨[], []⟩ "inv1" 0 true 0 rfl rfl
      (by simp)⟩

/-- C6 counterexample: evaluating the previously-unseen invoice `inv1`
with `daysOverdue = 0` (no send occurs) does not leave the in-memory
mapping unchanged: the fresh zero record is inserted. -/
theorem fresh_record_inserted_counterexample :
    processInvoice [7, 14, 21] 3 ⟨[], []⟩ "inv1" 0 true 0 =
      Except.ok ⟨[("inv1", zeroRecord)], []⟩ ∧
    ([("inv1", zeroRecord)] : Store) ≠ [] :=
  ⟨rfl, by simp⟩

/-- C7 (amended): a failed send never persists anything and leaves every
existing record untouched: for an invoice already present in the store the
whole state is unchanged in both the scheduled pass and the manual
override (for a previously-unseen invoice the scheduled pass still inserts
the fresh zero record in memory). -/
theorem failed_send_preserves_store (schedule : List Int) (maxR : Nat)
    (st : BotState) (invoiceId : String) (days now : Int)
    (r : ReminderRecord) (unpaidIds : List String)
    (hpres : lookupStore st.mem invoiceId = some r) :
    (processInvoice schedule maxR st invoiceId days false now = Except.ok st ∨
      processInvoice schedule maxR st invoiceId days false now = Except.error st) ∧
    send_manual_reminder st invoiceId unpaidIds false now = st := by
  have hmem1 : initRecord st.mem invoiceId = st.mem := by
    simp [initRecord, hpres]
  constructor
  · simp only [processInvoice, hmem1]
    cases hscan : reminderScan schedule maxR (effectiveRS st.mem invoiceId) days with
    | some i => left; simp
    | none =>
      by_cases h0 : maxR ≤ effectiveRS st.mem invoiceId
      · left; simp [h0]
      · cases hm : listMin schedule with
        | none => right; simp [h0]
        | some m => left; simp [h0, hm]
  · unfold send_manual_reminder
    by_cases hin : invoiceId ∈ unpaidIds <;> simp [hin]

/-- C7 witness: for the invoice `a` already recorded with one sent
reminder, a failed scheduled send and a failed manual send both leave the
state exactly as it was. -/
theorem failed_send_preserves_store_witness :
    lookupStore ([("a", ⟨1, some 5⟩)] : Store) "a" = some ⟨1, some 5⟩ ∧
    ((processInvoice [(7 : Int), 14, 21] 3 ⟨[("a", ⟨1, some 5⟩)], [("a", ⟨1, some 5⟩)]⟩
        "a" 20 false 0 =
      Except.ok ⟨[("a", ⟨1, some 5⟩)], [("a", ⟨1, some 5⟩)]⟩ ∨
      processInvoice [(7 : Int), 14, 21] 3 ⟨[("a", ⟨1, some 5⟩)], [("a", ⟨1, some 5⟩)]⟩
        "a" 20 false 0 =
      Except.error ⟨[("a", ⟨1, some 5⟩)], [("a", ⟨1, some 5⟩)]⟩) ∧
    send_manual_reminder ⟨[("a", ⟨1, some 5⟩)], [("a", ⟨1, some 5⟩)]⟩ "a" ["a"] false 0 =
      ⟨[("a", ⟨1, some 5⟩)], [("a", ⟨1, some 5⟩)]⟩) :=
  ⟨rfl,
    failed_send_preserves_store [7, 14, 21] 3
      ⟨[("a", ⟨1, some 5⟩)], [("a", ⟨1, some 5⟩)]⟩ "a" 20 0 ⟨1, some 5⟩ ["a"] rfl⟩

/-- C7 counterexample: a failed scheduled send for the previously-unseen
invoice `inv1` does not leave the store completely unchanged: the
in-memory mapping gains the fresh zero record (nothing is persisted). -/
theorem failed_send_insertion_counterexample :
    processInvoice [7, 14, 21] 3 ⟨[], []⟩ "inv1" 10 false 0 =
      Except.ok ⟨[("inv1", zeroRecord)], []⟩ ∧
    (⟨[("inv1", zeroRecord)], []⟩ : BotState) ≠ ⟨[], []⟩ :=
  ⟨rfl, by simp⟩

/-- C8: the manual override for an invoice in the unpaid list computes and
sends ordinal `reminders_sent + 1` (defaulting to `0` for an unseen
invoice); `send_manual_reminder` takes neither the schedule nor days
overdue, so the ordinal is independent of both. -/
theorem manual_override_ordinal (st : BotState) (invoiceId : String)
    (unpaidIds : List String) (now : Int) (hmem : invoiceId ∈ unpaidIds) :
    lookupStore (send_manual_reminder st invoiceId unpaidIds true now).mem
        invoiceId =
      some ⟨effectiveRS st.mem invoiceId + 1, some now⟩ := by
  unfold send_manual_reminder
  simp [hmem, lookupStore_insert]

/-- C8 witness: a manual reminder for invoice `a` with `reminders_sent = 2`
records ordinal 3. -/
theorem manual_override_ordinal_witness :
    "a" ∈ ["a", "b"] ∧
    lookupStore (send_manual_reminder ⟨[("a", ⟨2, some 1⟩)], []⟩ "a"
        ["a", "b"] true 9).mem "a" =
      some ⟨effectiveRS [("a", ⟨2, some 1⟩)] "a" + 1, some 9⟩ :=
  ⟨by decide, manual_override_ordinal ⟨[("a", ⟨2, some 1⟩)], []⟩ "a" ["a", "b"] 9
    (by decide)⟩

/-- With a nondecreasing schedule, the scan loop can only select ordinal
`reminders_sent + 1`, which is at most `maxReminders`. -/
theorem reminderScan_sorted_le_max (schedule : List Int) (maxR rs : Nat)
    (days : Int) (i : Nat) (hsort : List.Pairwise (· ≤ ·) schedule)
    (hscan : reminderScan schedule maxR rs days = some i) : i ≤ maxR := by
  obtain ⟨d, hget, hd, hrsi, hrsmax⟩ :=
    scanFrom_some_hit maxR rs days schedule 1 i hscan
  have h1 : 1 ≤ i := scanFrom_some_ge maxR rs days schedule 1 i hscan
  by_cases hcase : i = rs + 1
  · omega
  · exfalso
    have hlt : rs + 1 < i := by omega
    obtain ⟨hlen, hgeteq⟩ := List.get?_eq_some.mp hget
    have hrslen : rs < schedule.length := by omega
    have hget' : schedule.get? rs = some (schedule.get ⟨rs, hrslen⟩) :=
      List.get?_eq_get hrslen
    have hle : schedule.get ⟨rs, hrslen⟩ ≤ d := by
      have hp := List.pairwise_iff_get.mp hsort ⟨rs, hrslen⟩ ⟨i - 1, hlen⟩
        (by rw [Fin.mk_lt_mk]; omega)
      rw [hgeteq] at hp
      exact hp
    have hcontra := scanFrom_some_min maxR rs days schedule 1 i hscan (rs + 1)
      (by omega) hlt (schedule.get ⟨rs, hrslen⟩)
      (by simp only [Nat.add_sub_cancel]; exact hget')
    exact hcontra ⟨le_trans hle hd, by omega, hrsmax⟩

/-- Every record in the store has `reminders_sent` at most `maxR`. -/
def memInvariant (maxR : Nat) (st : BotState) : Prop :=
  ∀ id r, lookupStore st.mem id = some r → r.reminders_sent ≤ maxR

theorem initRecord_lookup (mem : Store) (invoiceId k : String)
    (r : ReminderRecord)
    (h : lookupStore (initRecord mem invoiceId) k = some r) :
    r = zeroRecord ∨ lookupStore mem k = some r := by
  unfold initRecord at h
  by_cases habs : (lookupStore mem invoiceId).isNone
  · rw [if_pos habs, lookupStore_insert_cases] at h
    by_cases hk : invoiceId = k
    · rw [if_pos hk] at h
      left
      exact (Option.some.inj h).symm
    · rw [if_neg hk] at h
      right
      exact h
  · rw [if_neg habs] at h
    right
    exact h

/-- The in-memory mapping after one scheduled evaluation: either just the
initialised mapping, or the initialised mapping with the sent ordinal
written for this invoice. -/
theorem processInvoice_mem (schedule : List Int) (maxR : Nat) (st : BotState)
    (invoiceId : String) (days : Int) (emailOk : Bool) (now : Int) :
    (exceptState (processInvoice schedule maxR st invoiceId days emailOk now)).mem =
      initRecord st.mem invoiceId ∨
    ∃ i, reminderScan schedule maxR
        (effectiveRS (initRecord st.mem invoiceId) invoiceId) days = some i ∧
      (exceptState (processInvoice schedule maxR st invoiceId days emailOk now)).mem =
        insertStore (initRecord st.mem invoiceId) invoiceId ⟨i, some now⟩ := by
  simp only [processInvoice]
  cases hscan : reminderScan schedule maxR
      (effectiveRS (initRecord st.mem invoiceId) invoiceId) days with
  | some i =>
    cases emailOk with
    | false => left; rfl
    | true => right; exact ⟨i, rfl, rfl⟩
  | none =>
    by_cases h0 : maxR ≤ effectiveRS (initRecord st.mem invoiceId) invoiceId
    · left; simp [h0, exceptState]
    · cases hm : listMin schedule with
      | none => left; simp [h0, hm, exceptState]
      | some m => left; simp [h0, hm, exceptState]

theorem applyOp_invariant (schedule : List Int) (maxR : Nat)
    (hsort : List.Pairwise (· ≤ ·) schedule) (st : BotState) (op : Op)
    (hop : op.isCheck = true) (hinv : memInvariant maxR st) :
    memInvariant maxR (applyOp schedule maxR st op) := by
  cases op with
  | manual id unpaid ok now => simp [Op.isCheck] at hop
  | check id days ok now =>
    have hmem1 : ∀ k r, lookupStore (initRecord st.mem id) k = some r →
        r.reminders_sent ≤ maxR := by
      intro k r h
      rcases initRecord_lookup st.mem id k r h with h1 | h2
      · subst h1; simp [zeroRecord]
      · exact hinv k r h2
    intro k r hlook
    simp only [applyOp] at hlook
    rcases processInvoice_mem schedule maxR st id days ok now with hcase | ⟨i, hscan, hcase⟩
    · rw [hcase] at hlook
      exact hmem1 k r hlook
    · rw [hcase, lookupStore_insert_cases] at hlook
      by_cases hk : id = k
      · rw [if_pos hk] at hlook
        have hile : i ≤ maxR :=
          reminderScan_sorted_le_max schedule maxR _ days i hsort hscan
        have : r = ⟨i, some now⟩ := (Option.some.inj hlook).symm
        rw [this]
        exact hile
      · rw [if_neg hk] at hlook
        exact hmem1 k r hlook

theorem foldl_invariant (schedule : List Int) (maxR : Nat)
    (hsort : List.Pairwise (· ≤ ·) schedule) :
    ∀ ops : List Op, ∀ st : BotState, (∀ op ∈ ops, op.isCheck = true) →
      memInvariant maxR st →
      memInvariant maxR (List.foldl (applyOp schedule maxR) st ops) := by
  intro ops
  induction ops with
  | nil => intro st _ hinv; exact hinv
  | cons op rest ih =>
    intro st hops hinv
    simp only [List.foldl]
    exact ih (applyOp schedule maxR st op)
      (fun o ho => hops o (List.mem_cons_of_mem _ ho))
      (applyOp_invariant schedule maxR hsort st op
        (hops op (List.mem_cons_self _ _)) hinv)

/-- C2 (amended): in every state reachable from the empty store by
scheduled evaluations alone, with the schedule nondecreasing (as it is by
convention), no record's `reminders_sent` exceeds `maxReminders`. The
manual override breaks the invariant (see the counterexample). -/
theorem scheduled_pass_counter_invariant (schedule : List Int) (maxR : Nat)
    (ops : List Op) (hsort : List.Pairwise (· ≤ ·) schedule)
    (hops : ∀ op ∈ ops, op.isCheck = true) (id : String) (r : ReminderRecord)
    (hlook : lookupStore (runOps schedule maxR ops).mem id = some r) :
    r.reminders_sent ≤ maxR :=
  foldl_invariant schedule maxR hsort ops ⟨[], []⟩ hops
    (by intro k r h; simp [lookupStore] at h) id r hlook

/-- C2 witness: one scheduled send from the empty store records ordinal 1,
within the maximum 3. -/
theorem scheduled_pass_counter_invariant_witness :
    lookupStore (runOps [(7 : Int), 14, 21] 3 [Op.check "a" 10 true 0]).mem "a" =
      some ⟨1, some 0⟩ ∧ 1 ≤ 3 :=
  ⟨rfl, scheduled_pass_counter_invariant [7, 14, 21] 3 [Op.check "a" 10 true 0]
    (by decide) (by decide) "a" ⟨1, some 0⟩ rfl⟩

/-- C2 counterexample: four manual overrides on invoice `a` (always in the
unpaid list, all sends succeeding) reach `reminders_sent = 4`, exceeding
`maxReminders = 3`: the manual path does not respect the invariant. -/
theorem manual_override_exceeds_max_counterexample :
    lookupStore (runOps [(7 : Int), 14, 21] 3
      [Op.manual "a" ["a"] true 0, Op.manual "a" ["a"] true 0,
       Op.manual "a" ["a"] true 0, Op.manual "a" ["a"] true 0]).mem "a" =
      some ⟨4, some 0⟩ ∧ ¬(4 ≤ 3) :=
  ⟨rfl, by decide⟩

/-- JSON values, the possible results of `json.load`. -/
inductive Json where
  | null
  | bool (b : Bool)
  | num (n : Int)
  | str (s : String)
  | arr (xs : List Json)
  | obj (kvs : List (String × Json))

/-- The persisted `invoice_state.json` file as seen by `load_state`:
missing, present but unparseable, or parsing to a JSON value. The JSON
parser itself is the Python standard library, outside the repository. -/
inductive PersistedFile where
  | missing
  | unparseable
  | parsed (j : Json)

/-- Result of `load_state`: the loaded value, or the propagated
`json.JSONDecodeError` (the function installs no handler, so the parse
error escapes to the caller). -/
inductive LoadResult where
  | ok (j : Json)
  | corrupt

/-- `load_state`: `{'invoices': {}}` if the file does not exist, otherwise
the result of `json.load`, whose parse error propagates unhandled. -/
def load_state : PersistedFile → LoadResult
  | PersistedFile.missing => LoadResult.ok (Json.obj [("invoices", Json.obj [])])
  | PersistedFile.unparseable => LoadResult.corrupt
  | PersistedFile.parsed j => LoadResult.ok j

/-- Dict lookup on a JSON object's key-value list. -/
def jsonGet : List (String × Json) → String → Option Json
  | [], _ => none
  | (k, v) :: rest, key => if k = key then some v else jsonGet rest key

/-- The access `self.state['invoices']` performed by `check_and_remind`
and `send_manual_reminder`: `none` models the `KeyError`/`TypeError`
raised when the loaded value is not an object with an `invoices` key. -/
def state_invoices : Json → Option Json
  | Json.obj kvs => jsonGet kvs "invoices"
  | _ => none

/-- C9: `load_state` returns the empty store when no persisted state
exists, and an unparseable persisted representation produces a propagated
error, never a silently substituted empty store. -/
theorem load_state_missing_and_corrupt :
    load_state PersistedFile.missing =
      LoadResult.ok (Json.obj [("invoices", Json.obj [])]) ∧
    load_state PersistedFile.unparseable = LoadResult.corrupt ∧
    (∀ j, load_state PersistedFile.unparseable ≠ LoadResult.ok j) :=
  ⟨rfl, rfl, fun _ h => LoadResult.noConfusion h⟩

/-- C10: `load_state` performs no shape validation: every successfully
parsed value is returned as-is, and a value lacking the `invoices` mapping
(such as the empty object) only fails later, when `state['invoices']` is
accessed. -/
theorem load_state_no_shape_validation :
    (∀ j, load_state (PersistedFile.parsed j) = LoadResult.ok j) ∧
    load_state (PersistedFile.parsed (Json.obj [])) =
      LoadResult.ok (Json.obj []) ∧
    state_invoices (Json.obj []) = none ∧
    state_invoices (Json.num 5) = none :=
  ⟨fun _ => rfl, rfl, rfl, rfl⟩

end ReminderBot
